import Mathlib

/-!
Verification of the GRR VFS API plugin (`grr/gui/api_plugins/vfs.py`)
against its natural-language specification.

The Python handlers are shallowly embedded: pure helpers become Lean
functions, store/flow lookups become explicit environment arguments, and
exceptions become `Except` values.  Paths are modelled as lists of
characters so that Python's `str.lstrip("/")` and `str.split("/")` can be
reproduced exactly.
-/

namespace GrrVfs

/-! ### Path validation (`ValidateVfsPath`, vfs.py lines 33-49) -/

/-- `ROOT_FILES_WHITELIST = ["fs", "registry", "temp"]` (vfs.py line 33). -/
def rootFilesWhitelist : List (List Char) :=
  [['f', 's'],
   ['r', 'e', 'g', 'i', 's', 't', 'r', 'y'],
   ['t', 'e', 'm', 'p']]

/-- Python `s.lstrip("/")`: removes every leading `'/'` character. -/
def lstripSlash : List Char → List Char
  | [] => []
  | c :: cs => if c = '/' then lstripSlash cs else c :: cs

/-- Python `s.split("/")`: splits on every `'/'`, keeping empty pieces;
`"".split("/") = [""]`, so the result is never the empty list. -/
def splitSlash : List Char → List (List Char)
  | [] => [[]]
  | c :: cs =>
    if c = '/' then [] :: splitSlash cs
    else
      match splitSlash cs with
      | [] => [[c]]
      | r :: rs => (c :: r) :: rs

/-- The errors `ValidateVfsPath` can raise (both are Python `ValueError`s):
the "Empty path is not a valid path" branch and the first-component
whitelist branch (which records the offending component). -/
inductive VfsPathError where
  | emptyPath : VfsPathError
  | badRoot (component : List Char) : VfsPathError
  deriving DecidableEq, Repr

/-- `ValidateVfsPath` (vfs.py lines 36-49):
`components = (path or "").lstrip("/").split("/")`; raise if the list is
empty; raise if `components[0]` is not whitelisted; otherwise return
`True`. -/
def validateVfsPath (path : List Char) : Except VfsPathError Bool :=
  let components := splitSlash (lstripSlash path)
  match components with
  | [] => .error .emptyPath
  | c0 :: _ =>
    if c0 ∈ rootFilesWhitelist then .ok true
    else .error (.badRoot c0)

/-- The first `"/"`-separated component of a path after stripping leading
slashes (default `[]` is unreachable since `splitSlash` never returns
`[]`). -/
def firstComponent (path : List Char) : List Char :=
  (splitSlash (lstripSlash path)).headD []

theorem splitSlash_ne_nil (l : List Char) : splitSlash l ≠ [] := by
  induction l with
  | nil => simp [splitSlash]
  | cons c cs ih =>
    simp only [splitSlash]
    split
    · simp
    · cases h : splitSlash cs with
      | nil => simp
      | cons r rs => simp

/-- **C5.** `ValidateVfsPath` returns `True` exactly when the first
`"/"`-separated component of the path, after stripping leading slashes, is
one of `fs`, `registry`, `temp`; on every other input it raises a
`ValueError` (here: returns an error value), so every validated path has a
whitelisted root component. -/
theorem validateVfsPath_ok_iff_whitelisted (path : List Char) :
    (validateVfsPath path = .ok true ↔ firstComponent path ∈ rootFilesWhitelist) ∧
    (firstComponent path ∉ rootFilesWhitelist →
      validateVfsPath path = .error (.badRoot (firstComponent path))) := by
  unfold validateVfsPath firstComponent
  cases h : splitSlash (lstripSlash path) with
  | nil => exact absurd h (splitSlash_ne_nil _)
  | cons c0 rest =>
    simp only [List.headD_cons]
    constructor
    · constructor
      · intro hok
        by_contra hmem
        simp [hmem] at hok
      · intro hmem
        simp [hmem]
    · intro hmem
      simp [hmem]

/-- **C9.** The "Empty path is not a valid path" branch of
`ValidateVfsPath` is unreachable: splitting any string on `"/"` yields a
non-empty component list, so the empty path and an all-slash path fail
with the whitelist error on the empty first component instead. -/
theorem validateVfsPath_emptyPath_unreachable :
    (∀ path : List Char, validateVfsPath path ≠ .error .emptyPath) ∧
    validateVfsPath [] = .error (.badRoot []) ∧
    validateVfsPath ['/', '/', '/'] = .error (.badRoot []) := by
  refine ⟨?_, rfl, rfl⟩
  intro path
  unfold validateVfsPath
  cases h : splitSlash (lstripSlash path) with
  | nil => exact absurd h (splitSlash_ne_nil _)
  | cons c0 rest =>
    by_cases hmem : c0 ∈ rootFilesWhitelist <;> simp [hmem]

/-! ### Flow-status handlers (vfs.py lines 644-667 and 845-867) -/

/-- The flow kinds the two status handlers distinguish by `isinstance`
checks: `filesystem.ListDirectory`, `filesystem.RecursiveListDirectory`,
`transfer.MultiGetFile`, and anything else stored under the name. -/
inductive FlowKind where
  | listDirectory : FlowKind
  | recursiveListDirectory : FlowKind
  | multiGetFile : FlowKind
  | otherFlow : FlowKind
  deriving DecidableEq, Repr

/-- A stored flow object: its kind plus the value of
`GetRunner().IsRunning()`. -/
structure FlowObj where
  kind : FlowKind
  isRunning : Bool
  deriving DecidableEq, Repr

/-- The store as seen through operation ids: each operation id either
resolves to a stored flow object or to nothing. -/
def FlowEnv := String → Option FlowObj

/-- What `aff4.FACTORY.Open` yields when called without `aff4_type`:
either the stored flow object or a generic non-flow object. -/
inductive Aff4OpenResult where
  | flowObj (f : FlowObj) : Aff4OpenResult
  | genericObj : Aff4OpenResult
  deriving DecidableEq, Repr

/-- Modelled from the spec: `aff4.FACTORY.Open(name)` with no required
type (the Typed Object Layer's `Open`, §4.2, which "raises an
`InstantiationError`" only on "a kind mismatch that cannot be
satisfied").  With no kind requested it never raises: a name holding a
flow yields that flow object, any other name yields a generic object
handle. -/
def factoryOpenAny (env : FlowEnv) (opId : String) : Aff4OpenResult :=
  match env opId with
  | some f => .flowObj f
  | none => .genericObj

/-- Modelled from the spec: `aff4.FACTORY.Open(name, aff4_type=k)`
(§4.2): "Opening with a kind mismatch that cannot be satisfied raises an
`InstantiationError`" and §4.1's `InstantiationError`-class covers a name
that "does not resolve to data"; the raised error is modelled as an
`Except.error` value. -/
def factoryOpenTyped (env : FlowEnv) (opId : String) (k : FlowKind) :
    Except Unit FlowObj :=
  match env opId with
  | some f => if f.kind = k then .ok f else .error ()
  | none => .error ()

/-- Externally visible operation states (`RUNNING`/`FINISHED`/`ERROR`). -/
inductive OpState where
  | RUNNING : OpState
  | FINISHED : OpState
  | ERROR : OpState
  deriving DecidableEq, Repr

/-- The error values the VFS handlers can surface.  The first three are
the `ResourceNotFoundError` subclasses declared at vfs.py lines 52-63;
`instantiationError` stands for an uncaught `aff4.InstantiationError`
escaping a handler. -/
inductive ApiError where
  | fileContentNotFound : ApiError
  | refreshOpNotFound (opId : String) : ApiError
  | updateOpNotFound (opId : String) : ApiError
  | instantiationError : ApiError
  deriving DecidableEq, Repr

/-- `ApiGetVfsRefreshOperationStateHandler.Handle` (vfs.py lines
651-666): open the operation id without a required type; if the result is
not a `RecursiveListDirectory`/`ListDirectory` flow raise
`VfsRefreshOperationNotFoundError`; otherwise report `FINISHED` when the
runner is no longer running and `RUNNING` otherwise. -/
def refreshOperationStateHandle (env : FlowEnv) (opId : String) :
    Except ApiError OpState :=
  match factoryOpenAny env opId with
  | .flowObj f =>
    if f.kind = .recursiveListDirectory ∨ f.kind = .listDirectory then
      let complete := !f.isRunning
      if complete then .ok .FINISHED else .ok .RUNNING
    else .error (.refreshOpNotFound opId)
  | .genericObj => .error (.refreshOpNotFound opId)

/-- `ApiGetVfsFileContentUpdateStateHandler.Handle` (vfs.py lines
852-867): open the operation id requiring `transfer.MultiGetFile`,
converting an `InstantiationError` into
`VfsFileContentUpdateNotFoundError`; otherwise report `FINISHED` when the
runner is no longer running and `RUNNING` otherwise. -/
def fileContentUpdateStateHandle (env : FlowEnv) (opId : String) :
    Except ApiError OpState :=
  match factoryOpenTyped env opId .multiGetFile with
  | .ok f =>
    let complete := !f.isRunning
    if complete then .ok .FINISHED else .ok .RUNNING
  | .error _ => .error (.updateOpNotFound opId)

/-- The refresh-state handler's name resolves to a flow object of the
expected kind. -/
def resolvesToRefreshFlow (env : FlowEnv) (opId : String) : Prop :=
  ∃ f, env opId = some f ∧
    (f.kind = .recursiveListDirectory ∨ f.kind = .listDirectory)

/-- The content-update-state handler's name resolves to a flow object of
the expected kind. -/
def resolvesToUpdateFlow (env : FlowEnv) (opId : String) : Prop :=
  ∃ f, env opId = some f ∧ f.kind = .multiGetFile

/-- **C2.** Each of the two status handlers either returns a state or
raises its `ResourceNotFoundError` subclass; the not-found error is
raised exactly when the name does not resolve to a flow object of the
expected kind, and no other error (in particular no raw
`InstantiationError`) reaches the caller. -/
theorem statusHandlers_notFound_iff (env : FlowEnv) (opId : String) :
    ((∃ s, refreshOperationStateHandle env opId = .ok s) ∨
      refreshOperationStateHandle env opId = .error (.refreshOpNotFound opId)) ∧
    (refreshOperationStateHandle env opId = .error (.refreshOpNotFound opId) ↔
      ¬ resolvesToRefreshFlow env opId) ∧
    ((∃ s, fileContentUpdateStateHandle env opId = .ok s) ∨
      fileContentUpdateStateHandle env opId = .error (.updateOpNotFound opId)) ∧
    (fileContentUpdateStateHandle env opId = .error (.updateOpNotFound opId) ↔
      ¬ resolvesToUpdateFlow env opId) := by
  unfold refreshOperationStateHandle fileContentUpdateStateHandle
    factoryOpenAny factoryOpenTyped resolvesToRefreshFlow resolvesToUpdateFlow
  cases h : env opId with
  | none => simp [h]
  | some f =>
    by_cases hk : f.kind = .recursiveListDirectory ∨ f.kind = .listDirectory <;>
      by_cases hm : f.kind = .multiGetFile <;>
        cases hr : f.isRunning <;>
          simp_all


/-- **C6.** When the operation id resolves to a flow object of the
expected kind, each status handler returns `FINISHED` iff
`IsRunning()` is false and `RUNNING` iff `IsRunning()` is true, and the
returned state always lies in {RUNNING, FINISHED, ERROR}. -/
theorem statusHandlers_state_iff_running (env : FlowEnv) (opId : String)
    (f : FlowObj) (h : env opId = some f) :
    ((f.kind = .recursiveListDirectory ∨ f.kind = .listDirectory) →
      ∀ s, refreshOperationStateHandle env opId = .ok s →
        (s = .FINISHED ↔ f.isRunning = false) ∧
        (s = .RUNNING ↔ f.isRunning = true) ∧
        (s = .RUNNING ∨ s = .FINISHED ∨ s = .ERROR)) ∧
    (f.kind = .multiGetFile →
      ∀ s, fileContentUpdateStateHandle env opId = .ok s →
        (s = .FINISHED ↔ f.isRunning = false) ∧
        (s = .RUNNING ↔ f.isRunning = true) ∧
        (s = .RUNNING ∨ s = .FINISHED ∨ s = .ERROR)) := by
  constructor
  · intro hk s hs
    unfold refreshOperationStateHandle factoryOpenAny at hs
    rw [h] at hs
    simp only [hk, if_true] at hs
    cases hr : f.isRunning <;> simp [hr] at hs <;> simp [← hs]
  · intro hk s hs
    unfold fileContentUpdateStateHandle factoryOpenTyped at hs
    rw [h] at hs
    simp only [hk, if_true] at hs
    cases hr : f.isRunning <;> simp [hr] at hs <;> simp [← hs]

/-- Witness for C6 at a concrete environment: a finished
`RecursiveListDirectory` refresh operation and a running `MultiGetFile`
update operation. -/
theorem statusHandlers_state_iff_running_witness :
    refreshOperationStateHandle
      (fun _ => some ⟨.recursiveListDirectory, false⟩) "op1" =
        .ok .FINISHED ∧
    ((OpState.FINISHED = OpState.FINISHED ↔ false = false) ∧
      (OpState.FINISHED = OpState.RUNNING ↔ false = true) ∧
      (OpState.FINISHED = .RUNNING ∨ OpState.FINISHED = .FINISHED ∨
        OpState.FINISHED = .ERROR)) := by
  refine ⟨rfl, ?_⟩
  exact (statusHandlers_state_iff_running
    (fun _ => some ⟨.recursiveListDirectory, false⟩) "op1"
    ⟨.recursiveListDirectory, false⟩ rfl).1 (Or.inl rfl) .FINISHED rfl

/-! ### Stream reads (`Aff4FileReaderMixin`, vfs.py lines 363-374) -/

/-- An opened AFF4 stream: its byte content, the value of its derived
`SIZE` attribute, and the current seek position.  Offsets and lengths are
Python integers, modelled as `Int`. -/
structure Aff4StreamObj where
  content : List Nat
  sizeAttr : Int
  pos : Int
  deriving DecidableEq, Repr

/-- `Aff4FileReaderMixin.GetTotalSize` (vfs.py lines 366-367):
`int(aff4_obj.Get(aff4_obj.Schema.SIZE))`. -/
def getTotalSize (obj : Aff4StreamObj) : Int :=
  obj.sizeAttr

/-- Modelled from the spec: `aff4_obj.Seek(offset)` of the Typed Object
Layer's stream handle — it just moves the read position. -/
def streamSeek (obj : Aff4StreamObj) (offset : Int) : Aff4StreamObj :=
  { obj with pos := offset }

/-- Modelled from the spec: the Typed Object Layer's stream
`Read(offset, length)` algorithm (§4.2) — fetch the covering chunks and
slice "to the exact requested window", i.e. return the window of at most
`length` bytes starting at the current position (empty for a
non-positive requested length). -/
def streamReadBytes (obj : Aff4StreamObj) (length : Int) : List Nat :=
  (obj.content.drop obj.pos.toNat).take length.toNat

/-- `Aff4FileReaderMixin.Read` (vfs.py lines 369-374): when `length` is
falsy (0) replace it by `GetTotalSize(aff4_obj) - offset`, then
`Seek(offset)` and `Read(length)`. -/
def mixinRead (obj : Aff4StreamObj) (offset length : Int) : List Nat :=
  let length := if length = 0 then getTotalSize obj - offset else length
  streamReadBytes (streamSeek obj offset) length

/-- **C3.** On a stream whose `SIZE` attribute equals its content length,
`Aff4FileReaderMixin.Read` with `length = 0` at an offset within the
stream returns exactly `GetTotalSize(obj) - offset` bytes — the suffix of
the content from `offset`; in particular at `offset = 0` it returns the
full `SIZE` bytes of content. -/
theorem mixinRead_length_zero (obj : Aff4StreamObj) (offset : Int)
    (hsz : obj.sizeAttr = obj.content.length)
    (h0 : 0 ≤ offset) (hle : offset ≤ obj.sizeAttr) :
    mixinRead obj offset 0 = obj.content.drop offset.toNat ∧
    ((mixinRead obj offset 0).length : Int) = getTotalSize obj - offset ∧
    mixinRead obj 0 0 = obj.content := by
  have hcore : ∀ off : Int, 0 ≤ off → off ≤ obj.sizeAttr →
      mixinRead obj off 0 = obj.content.drop off.toNat := by
    intro off hoff hle'
    rw [hsz] at hle'
    show (obj.content.drop off.toNat).take (obj.sizeAttr - off).toNat =
      obj.content.drop off.toNat
    apply List.take_of_length_le
    rw [List.length_drop, hsz]
    omega
  refine ⟨hcore offset h0 hle, ?_, ?_⟩
  · rw [hcore offset h0 hle, List.length_drop, getTotalSize, hsz]
    have := h0
    rw [hsz] at hle
    omega
  · have := hcore 0 le_rfl (by rw [hsz]; exact_mod_cast Int.ofNat_nonneg _)
    simpa using this

/-- Witness for C3 on the concrete stream `[10, 20, 30]` with
`SIZE = 3`, read at `offset = 1, length = 0`. -/
theorem mixinRead_length_zero_witness :
    mixinRead ⟨[10, 20, 30], 3, 0⟩ 1 0 = [20, 30] ∧
    ((mixinRead ⟨[10, 20, 30], 3, 0⟩ 1 0).length : Int) =
      getTotalSize ⟨[10, 20, 30], 3, 0⟩ - 1 ∧
    mixinRead ⟨[10, 20, 30], 3, 0⟩ 0 0 = [10, 20, 30] := by
  have := mixinRead_length_zero ⟨[10, 20, 30], 3, 0⟩ 1 (by decide) (by decide)
    (by decide)
  simpa using this

/-! ### File version times (`ApiGetFileVersionTimesHandler`, vfs.py
lines 507-524) -/

/-- One stored version of an attribute: an opaque value plus the age
(timestamp) it was written at. -/
structure AttrVersion where
  value : Nat
  age : Nat
  deriving DecidableEq, Repr

/-- Python `sorted(xs, reverse=True)` on integers: a stable ascending
sort followed by reversal yields the same descending list. -/
def pySortedDesc (l : List Nat) : List Nat :=
  (l.insertionSort (· ≤ ·)).reverse

/-- `ApiGetFileVersionTimesHandler.Handle` (vfs.py lines 513-524) after
the open: the stored versions of the `TYPE` attribute are the input
(modelled from the spec: `GetValuesForAttribute` on an object opened with
the all-versions age selector returns "every write ever made"); the
handler returns their ages sorted newest first. -/
def fileVersionTimesHandle (typeVersions : List AttrVersion) : List Nat :=
  pySortedDesc (typeVersions.map AttrVersion.age)

/-- **C4.** The version-times handler returns one timestamp per stored
version of the `TYPE` attribute — a permutation of the version ages,
omitting none — sorted newest (largest) first. -/
theorem fileVersionTimesHandle_perm_sorted (typeVersions : List AttrVersion) :
    List.Perm (fileVersionTimesHandle typeVersions)
      (typeVersions.map AttrVersion.age) ∧
    (fileVersionTimesHandle typeVersions).Sorted (· ≥ ·) := by
  constructor
  · exact (List.reverse_perm _).trans (List.perm_insertionSort _ _)
  · unfold fileVersionTimesHandle pySortedDesc
    rw [List.Sorted, List.pairwise_reverse]
    have h := List.sorted_insertionSort (fun a b : ℕ => a ≤ b)
      (typeVersions.map AttrVersion.age)
    exact h.imp (fun hab => hab)

/-! ### Blob content length (`ApiGetFileBlobHandler`, vfs.py lines
440-490) -/

/-- The length clamping in `ApiGetFileBlobHandler.Handle` (vfs.py lines
478-483): a falsy (0) requested length becomes `total_size - offset`,
anything else becomes `min(abs(length), total_size - offset)`. -/
def blobContentLength (totalSize offset length : Int) : Int :=
  if length = 0 then totalSize - offset
  else min |length| (totalSize - offset)

/-- What the blob handler needs from the opened file: whether the content
was missing (open failure or no content age) and the `SIZE` attribute. -/
structure BlobFileEnv where
  contentMissing : Bool
  totalSize : Int
  deriving DecidableEq, Repr

/-- `ApiGetFileBlobHandler.Handle` (vfs.py lines 452-490), reduced to the
announced `content_length` of the returned binary stream: raise
`FileContentNotFoundError` when the content is missing, otherwise clamp
the requested length and return it as the content length. -/
def fileBlobHandleLength (env : BlobFileEnv) (offset length : Int) :
    Except ApiError Int :=
  if env.contentMissing then .error .fileContentNotFound
  else .ok (blobContentLength env.totalSize offset length)

/-- **C8.** When the file content is found, the announced content length
is `SIZE - offset` for a requested length of 0 and
`min(|length|, SIZE - offset)` otherwise; in both cases it never exceeds
`SIZE - offset`, even for over-long or negative requested lengths. -/
theorem fileBlobHandleLength_spec (env : BlobFileEnv) (offset length : Int)
    (h : env.contentMissing = false) :
    fileBlobHandleLength env offset length =
      .ok (blobContentLength env.totalSize offset length) ∧
    (length = 0 →
      blobContentLength env.totalSize offset length = env.totalSize - offset) ∧
    (length ≠ 0 →
      blobContentLength env.totalSize offset length =
        min |length| (env.totalSize - offset)) ∧
    blobContentLength env.totalSize offset length ≤ env.totalSize - offset := by
  refine ⟨by simp [fileBlobHandleLength, h], ?_, ?_, ?_⟩
  · intro hz; simp [blobContentLength, hz]
  · intro hnz; simp [blobContentLength, hnz]
  · unfold blobContentLength
    split
    · exact le_rfl
    · exact min_le_right _ _

/-- Witness for C8 on a 10-byte file read at offset 2 with requested
length -100: the announced length is 8. -/
theorem fileBlobHandleLength_spec_witness :
    fileBlobHandleLength ⟨false, 10⟩ 2 (-100) =
      .ok (blobContentLength 10 2 (-100)) ∧
    blobContentLength 10 2 (-100) ≤ 10 - 2 := by
  have := fileBlobHandleLength_spec ⟨false, 10⟩ 2 (-100) rfl
  exact ⟨this.1, this.2.2.2⟩

/-! ### Archive member streaming (`ApiGetVfsFilesArchiveHandler._StreamFds`,
vfs.py lines 883-905) -/

/-- One item yielded by `aff4.AFF4Stream.MultiStream(fds)`: the stream it
belongs to (identified by a number), the chunk payload, and whether an
exception occurred for this chunk. -/
structure StreamTriple where
  fd : Nat
  chunkData : Nat
  exc : Bool
  deriving DecidableEq, Repr

/-- The archive-generator calls `_StreamFds` yields, in order:
`WriteFileHeader` (for the member of a given stream), `WriteFileChunk`,
and `WriteFileFooter`. -/
inductive ZipEvent where
  | header (fd : Nat) : ZipEvent
  | chunk (data : Nat) : ZipEvent
  | footer : ZipEvent
  deriving DecidableEq, Repr

/-- The loop body of `_StreamFds` (vfs.py lines 884-905) with the
`prev_fd` accumulator made explicit: skip exception triples; on a stream
identity change emit the previous member's footer (if any) and the new
member's header; always emit the chunk; at the end close the last member. -/
def streamFdsGo (prev : Option Nat) : List StreamTriple → List ZipEvent
  | [] => if prev.isSome then [.footer] else []
  | t :: ts =>
    if t.exc then streamFdsGo prev ts
    else if prev ≠ some t.fd then
      (if prev.isSome then [.footer] else []) ++
        .header t.fd :: .chunk t.chunkData :: streamFdsGo (some t.fd) ts
    else .chunk t.chunkData :: streamFdsGo prev ts

/-- `_StreamFds` over the full triple sequence (`prev_fd = None`
initially). -/
def streamFds (ts : List StreamTriple) : List ZipEvent :=
  streamFdsGo none ts

/-- The stream identities of the non-exception triples, in order. -/
def filteredFds (ts : List StreamTriple) : List Nat :=
  (ts.filter (fun t => !t.exc)).map StreamTriple.fd

/-- Collapse consecutive repetitions, given the identity of the current
run. -/
def runsFrom (p : Nat) : List Nat → List Nat
  | [] => []
  | a :: l => if a = p then runsFrom p l else a :: runsFrom a l

/-- The maximal runs of equal consecutive stream identities: one entry
per archive member `_StreamFds` opens. -/
def dedupRuns : List Nat → List Nat
  | [] => []
  | a :: l => a :: runsFrom a l

/-- The header/footer skeleton of an event list (chunks dropped). -/
def boundaryTrace (evs : List ZipEvent) : List ZipEvent :=
  evs.filter fun e =>
    match e with
    | .chunk _ => false
    | _ => true

/-- The well-formed archive skeleton for a list of members: header, then
footer, member after member. -/
def memberTrace : List Nat → List ZipEvent
  | [] => []
  | s :: rest => .header s :: .footer :: memberTrace rest

/-- The claim as stated: every input stream occurring in the yielded
sequence gets exactly one header, and there is exactly one footer per
input stream, for an arbitrary interleaving of the triples. -/
def onePairPerStream (ts : List StreamTriple) : Prop :=
  (∀ s ∈ ts.map StreamTriple.fd,
    (streamFds ts).count (ZipEvent.header s) = 1) ∧
  (streamFds ts).count ZipEvent.footer =
    (ts.map StreamTriple.fd).dedup.length

theorem boundaryTrace_count_header (evs : List ZipEvent) (s : Nat) :
    (boundaryTrace evs).count (ZipEvent.header s) =
      evs.count (ZipEvent.header s) := by
  induction evs with
  | nil => rfl
  | cons e evs ih =>
    cases e <;> simp [boundaryTrace, List.count_cons] at ih ⊢

theorem boundaryTrace_count_footer (evs : List ZipEvent) :
    (boundaryTrace evs).count ZipEvent.footer =
      evs.count ZipEvent.footer := by
  induction evs with
  | nil => rfl
  | cons e evs ih =>
    cases e <;> simp [boundaryTrace, List.count_cons] at ih ⊢

theorem memberTrace_count_header (l : List Nat) (s : Nat) :
    (memberTrace l).count (ZipEvent.header s) = l.count s := by
  induction l with
  | nil => rfl
  | cons a l ih =>
    by_cases h : a = s <;>
      simp [memberTrace, List.count_cons, ih, h]

theorem memberTrace_count_footer (l : List Nat) :
    (memberTrace l).count ZipEvent.footer = l.length := by
  induction l with
  | nil => rfl
  | cons a l ih => simp [memberTrace, List.count_cons, ih]

theorem streamFdsGo_some_boundary (ts : List StreamTriple) :
    ∀ p, boundaryTrace (streamFdsGo (some p) ts) =
      ZipEvent.footer :: memberTrace (runsFrom p (filteredFds ts)) := by
  induction ts with
  | nil => intro p; rfl
  | cons t ts ih =>
    intro p
    by_cases hexc : t.exc
    · have hf : filteredFds (t :: ts) = filteredFds ts := by
        simp [filteredFds, hexc]
      rw [show streamFdsGo (some p) (t :: ts) = streamFdsGo (some p) ts by
        simp [streamFdsGo, hexc], hf]
      exact ih p
    · have hf : filteredFds (t :: ts) = t.fd :: filteredFds ts := by
        simp [filteredFds, hexc]
      by_cases hfd : t.fd = p
      · rw [show streamFdsGo (some p) (t :: ts) =
            ZipEvent.chunk t.chunkData :: streamFdsGo (some p) ts by
          simp [streamFdsGo, hexc, hfd], hf]
        have : runsFrom p (t.fd :: filteredFds ts) = runsFrom p (filteredFds ts) := by
          simp [runsFrom, hfd]
        rw [this, show boundaryTrace (ZipEvent.chunk t.chunkData :: streamFdsGo (some p) ts)
            = boundaryTrace (streamFdsGo (some p) ts) from by simp [boundaryTrace]]
        exact ih p
      · have hfd' : ¬ p = t.fd := fun hh => hfd hh.symm
        rw [show streamFdsGo (some p) (t :: ts) =
            ZipEvent.footer :: ZipEvent.header t.fd :: ZipEvent.chunk t.chunkData ::
              streamFdsGo (some t.fd) ts by
          simp [streamFdsGo, hexc, hfd, hfd'], hf]
        have hruns : runsFrom p (t.fd :: filteredFds ts) =
            t.fd :: runsFrom t.fd (filteredFds ts) := by
          simp [runsFrom, hfd]
        rw [hruns]
        have : boundaryTrace (ZipEvent.footer :: ZipEvent.header t.fd ::
            ZipEvent.chunk t.chunkData :: streamFdsGo (some t.fd) ts) =
            ZipEvent.footer :: ZipEvent.header t.fd ::
              boundaryTrace (streamFdsGo (some t.fd) ts) := by
          simp [boundaryTrace]
        rw [this, ih t.fd]
        rfl

theorem streamFds_boundary (ts : List StreamTriple) :
    boundaryTrace (streamFds ts) = memberTrace (dedupRuns (filteredFds ts)) := by
  unfold streamFds
  induction ts with
  | nil => rfl
  | cons t ts ih =>
    by_cases hexc : t.exc
    · have hf : filteredFds (t :: ts) = filteredFds ts := by
        simp [filteredFds, hexc]
      rw [show streamFdsGo none (t :: ts) = streamFdsGo none ts by
        simp [streamFdsGo, hexc], hf]
      exact ih
    · have hf : filteredFds (t :: ts) = t.fd :: filteredFds ts := by
        simp [filteredFds, hexc]
      rw [show streamFdsGo none (t :: ts) =
          ZipEvent.header t.fd :: ZipEvent.chunk t.chunkData ::
            streamFdsGo (some t.fd) ts by
        simp [streamFdsGo, hexc], hf]
      have : boundaryTrace (ZipEvent.header t.fd :: ZipEvent.chunk t.chunkData ::
          streamFdsGo (some t.fd) ts) =
          ZipEvent.header t.fd :: boundaryTrace (streamFdsGo (some t.fd) ts) := by
        simp [boundaryTrace]
      rw [this, streamFdsGo_some_boundary ts t.fd]
      rfl

/-- **C1 (counterexample).** The claim as stated fails on an interleaved
triple sequence: with chunks arriving as stream 0, stream 1, stream 0,
`_StreamFds` emits two headers (and two footers) for stream 0, not
exactly one header/footer pair per input stream. -/
theorem streamFds_onePairPerStream_counterexample :
    ¬ onePairPerStream
      [⟨0, 10, false⟩, ⟨1, 11, false⟩, ⟨0, 12, false⟩] := by
  intro h
  have := h.1 0 (by decide)
  revert this
  decide

/-- **C1 (amended).** When the triples arrive grouped by stream identity
— each stream's non-exception chunks contiguous, as `MultiStream`'s
batched read, "ordered first by stream identity", produces them — the
header/footer skeleton of `_StreamFds`'s output is exactly
header-then-footer for each stream in order (so the previous member's
footer precedes the next member's header), with exactly one header per
stream that contributes a non-exception chunk and exactly one footer per
such stream. -/
theorem streamFds_grouped_onePairPerStream (ts : List StreamTriple)
    (h : (dedupRuns (filteredFds ts)).Nodup) :
    boundaryTrace (streamFds ts) = memberTrace (dedupRuns (filteredFds ts)) ∧
    (∀ s ∈ dedupRuns (filteredFds ts),
      (streamFds ts).count (ZipEvent.header s) = 1) ∧
    (streamFds ts).count ZipEvent.footer =
      (dedupRuns (filteredFds ts)).length := by
  refine ⟨streamFds_boundary ts, ?_, ?_⟩
  · intro s hs
    rw [← boundaryTrace_count_header, streamFds_boundary ts,
      memberTrace_count_header]
    exact List.count_eq_one_of_mem h hs
  · rw [← boundaryTrace_count_footer, streamFds_boundary ts,
      memberTrace_count_footer]

/-- Witness for the amended C1: two streams, the first contributing two
contiguous chunks. -/
theorem streamFds_grouped_onePairPerStream_witness :
    boundaryTrace (streamFds [⟨0, 5, false⟩, ⟨0, 6, false⟩, ⟨1, 7, false⟩]) =
      memberTrace [0, 1] ∧
    (∀ s ∈ dedupRuns (filteredFds
        [⟨0, 5, false⟩, ⟨0, 6, false⟩, ⟨1, 7, false⟩]),
      (streamFds [⟨0, 5, false⟩, ⟨0, 6, false⟩, ⟨1, 7, false⟩]).count
        (ZipEvent.header s) = 1) ∧
    (streamFds [⟨0, 5, false⟩, ⟨0, 6, false⟩, ⟨1, 7, false⟩]).count
      ZipEvent.footer = 2 := by
  have := streamFds_grouped_onePairPerStream
    [⟨0, 5, false⟩, ⟨0, 6, false⟩, ⟨1, 7, false⟩] (by decide)
  refine ⟨?_, this.2.1, ?_⟩
  · rw [this.1]; rfl
  · rw [this.2.2]; rfl

/-! ### Archive content generation
(`ApiGetVfsFilesArchiveHandler._GenerateContent`, vfs.py lines 907-932) -/

/-- How `MultiOpen` classifies an opened object inside
`_GenerateContent`: an `AFF4Stream` (checked first), an object with the
`Container` behaviour, or anything else (ignored). -/
inductive VfsObjKind where
  | stream : VfsObjKind
  | container : VfsObjKind
  | other : VfsObjKind
  deriving DecidableEq, Repr

/-- The store as `_GenerateContent` sees it: `MultiListChildren` (child
URNs of a name, modelled from the spec's prefix-scan child listing) and
the classification `MultiOpen` gives each opened name.  URNs are numbers. -/
structure VfsTreeEnv where
  children : Nat → List Nat
  kindOf : Nat → VfsObjKind

/-- The URNs discovered by one `MultiListChildren` round over the current
frontier (`next_urns` in vfs.py lines 913-917). -/
def nextUrns (env : VfsTreeEnv) (frontier : Finset Nat) : Finset Nat :=
  frontier.biUnion fun u => (env.children u).toFinset

/-- One iteration of the `while folders_urns` loop (vfs.py lines
912-925): list the children of the frontier, open each, and keep the
containers as the next frontier. -/
def stepFrontier (env : VfsTreeEnv) (frontier : Finset Nat) : Finset Nat :=
  (nextUrns env frontier).filter fun u => env.kindOf u = .container

/-- The streams discovered (and fed to `_StreamFds`) in one iteration
(`download_fds`, vfs.py lines 919-923). -/
def downloadFdsAt (env : VfsTreeEnv) (frontier : Finset Nat) : Finset Nat :=
  (nextUrns env frontier).filter fun u => env.kindOf u = .stream

/-- The frontier after `n` iterations of the loop, starting from the
start URNs. -/
def frontierIter (env : VfsTreeEnv) : Nat → Finset Nat → Finset Nat
  | 0, start => start
  | n + 1, start => stepFrontier env (frontierIter env n start)

theorem frontierIter_rank_bound (env : VfsTreeEnv) (rank : Nat → Nat)
    (hacyc : ∀ u v, v ∈ env.children u → rank v < rank u)
    (start : Finset Nat) :
    ∀ n u, u ∈ frontierIter env n start → rank u + n ≤ start.sup rank := by
  intro n
  induction n with
  | zero => intro u hu; simpa using Finset.le_sup hu
  | succ n ih =>
    intro u hu
    simp only [frontierIter, stepFrontier, nextUrns, Finset.mem_filter,
      Finset.mem_biUnion, List.mem_toFinset] at hu
    obtain ⟨⟨v, hv, huv⟩, _⟩ := hu
    have h1 := hacyc v u huv
    have h2 := ih v hv
    omega

/-- **C7.** When the child relation admits a rank strictly decreasing
along every child edge (the finite-and-acyclic hypothesis), the
`_GenerateContent` frontier loop terminates: the frontier is empty after
at most `sup rank + 1` iterations.  Each iteration is, by construction,
one `MultiListChildren` round over the current frontier followed by the
`MultiOpen` classification that streams the `AFF4Stream` objects and
feeds the `Container` objects back in as the next frontier. -/
theorem generateContent_frontier_terminates (env : VfsTreeEnv)
    (rank : Nat → Nat)
    (hacyc : ∀ u v, v ∈ env.children u → rank v < rank u)
    (start : Finset Nat) :
    (∀ n, frontierIter env (n + 1) start =
      (nextUrns env (frontierIter env n start)).filter
        (fun u => env.kindOf u = .container) ∧
      downloadFdsAt env (frontierIter env n start) =
        (nextUrns env (frontierIter env n start)).filter
          (fun u => env.kindOf u = .stream)) ∧
    frontierIter env (start.sup rank + 1) start = ∅ := by
  constructor
  · intro n; exact ⟨rfl, rfl⟩
  · rw [Finset.eq_empty_iff_forall_not_mem]
    intro u hu
    have := frontierIter_rank_bound env rank hacyc start (start.sup rank + 1) u hu
    omega

/-- A concrete three-node tree for the C7 witness: URN 0 has children 1
(a container) and 2 (a stream), URN 1 has the stream child 3. -/
def wTreeEnv : VfsTreeEnv where
  children u :=
    match u with
    | 0 => [1, 2]
    | 1 => [3]
    | _ => []
  kindOf u :=
    match u with
    | 1 => .container
    | 2 => .stream
    | 3 => .stream
    | _ => .other

/-- Witness for C7 on `wTreeEnv` starting from URN 0, with rank
`4 - u`: the frontier is empty after at most 5 iterations. -/
theorem generateContent_frontier_terminates_witness :
    frontierIter wTreeEnv (({0} : Finset Nat).sup (fun u => 4 - u) + 1) {0} = ∅ := by
  have hacyc : ∀ u v, v ∈ wTreeEnv.children u → (4 - v) < (4 - u) := by
    intro u v hv
    match u with
    | 0 =>
      simp only [wTreeEnv, List.mem_cons, List.mem_singleton] at hv
      rcases hv with h | h | h <;> simp_all
    | 1 =>
      simp only [wTreeEnv, List.mem_cons, List.not_mem_nil, or_false] at hv
      simp [hv]
    | n + 2 =>
      simp [wTreeEnv] at hv
  exact (generateContent_frontier_terminates wTreeEnv (fun u => 4 - u)
    hacyc {0}).2

/-! ### Object representation
(`ApiAff4ObjectType.InitFromAff4Object`, vfs.py lines 97-147, and
`ApiAff4ObjectRepresentation.InitFromAff4Object`, vfs.py lines 162-191)

Class and attribute names are modelled as `List Char` so that Python's
`sorted` over the schema dict keys can be reproduced by a computable
lexicographic order. -/

/-- `ApiAff4ObjectAttributeValue` (vfs.py lines 66-76), reduced to the
fields the representation uses: the value's type name and its age. -/
structure ApiAff4ObjectAttributeValue where
  typeName : List Char
  age : Nat
  deriving DecidableEq, Repr

/-- One entry of a class's `SchemaCls.__dict__`: its key, whether the
value is an `aff4.Attribute`, and the attribute's description. -/
structure SchemaEntry where
  name : List Char
  isAttribute : Bool
  description : List Char
  deriving DecidableEq, Repr

/-- One class of the Aff4Object's method resolution order: its `__name__`,
whether it has a `SchemaCls`, and that schema's dict entries. -/
structure ClsInfo where
  clsName : List Char
  hasSchema : Bool
  schema : List SchemaEntry
  deriving DecidableEq, Repr

/-- `aff4_obj.GetValuesForAttribute` for the attribute instance found
under a given (class name, attribute name): the stored values, already
decoded. -/
def AttrEnv := List Char → List Char → List ApiAff4ObjectAttributeValue

/-- `ApiAff4ObjectAttribute` (vfs.py lines 79-83): one attribute with its
values. -/
structure ApiAff4ObjectAttribute where
  name : List Char
  description : List Char
  values : List ApiAff4ObjectAttributeValue
  deriving DecidableEq, Repr

/-- `ApiAff4ObjectType` (vfs.py lines 86-95): the attributes contributed
by one class of the hierarchy. -/
structure ApiAff4ObjectType where
  name : List Char
  attributes : List ApiAff4ObjectAttribute
  deriving DecidableEq, Repr

/-- Lexicographic order on names by character code, as Python compares
strings. -/
def nameLe : List Char → List Char → Bool
  | [], _ => true
  | _ :: _, [] => false
  | a :: as, b :: bs => if a = b then nameLe as bs else decide (a.val < b.val)

/-- `sorted(schema.__dict__.items())` (vfs.py line 117): the schema
entries sorted by name. -/
def sortSchema (schema : List SchemaEntry) : List SchemaEntry :=
  schema.insertionSort fun a b => nameLe a.name b.name = true

/-- The attribute loop of `ApiAff4ObjectType.InitFromAff4Object` (vfs.py
lines 117-145): walk the sorted schema entries, skip non-attributes,
skip blacklisted names, fetch the values, and keep the attribute exactly
when it has at least one value. -/
def typeInitAttrs (env : AttrEnv) (cls : ClsInfo)
    (blacklist : List (List Char)) : List ApiAff4ObjectAttribute :=
  ((sortSchema cls.schema).filter fun e =>
    e.isAttribute && !(decide (e.name ∈ blacklist)) &&
      !((env cls.clsName e.name).isEmpty)).map
    fun e => ⟨e.name, e.description, env cls.clsName e.name⟩

/-- `ApiAff4ObjectType.InitFromAff4Object` (vfs.py lines 97-147). -/
def apiTypeInit (env : AttrEnv) (cls : ClsInfo)
    (blacklist : List (List Char)) : ApiAff4ObjectType :=
  ⟨cls.clsName, typeInitAttrs env cls blacklist⟩

/-- The MRO loop of `ApiAff4ObjectRepresentation.InitFromAff4Object`
(vfs.py lines 174-191) with the growing `attr_blacklist` explicit: skip
classes without a `SchemaCls`, build the type representation, append it
when it has attributes, and extend the blacklist with the attribute
names it contains. -/
def reprInitGo (env : AttrEnv) :
    List ClsInfo → List (List Char) → List ApiAff4ObjectType
  | [], _ => []
  | cls :: rest, blacklist =>
    if cls.hasSchema then
      let t := apiTypeInit env cls blacklist
      let tail := reprInitGo env rest
        (blacklist ++ t.attributes.map ApiAff4ObjectAttribute.name)
      if t.attributes.isEmpty then tail else t :: tail
    else reprInitGo env rest blacklist

/-- `ApiAff4ObjectRepresentation.InitFromAff4Object` (vfs.py lines
162-191): the MRO loop started with an empty blacklist. -/
def reprInit (env : AttrEnv) (mro : List ClsInfo) : List ApiAff4ObjectType :=
  reprInitGo env mro []

/-- All attribute names of a list of type representations, in order. -/
def typesAttrNames : List ApiAff4ObjectType → List (List Char)
  | [] => []
  | t :: rest =>
    t.attributes.map ApiAff4ObjectAttribute.name ++ typesAttrNames rest

/-- A class's schema defines the attribute name `n`. -/
def definesAttr (n : List Char) (cls : ClsInfo) : Bool :=
  cls.hasSchema && cls.schema.any fun e => e.isAttribute && e.name == n

/-- A class's schema defines `n` and the object has at least one value
for that attribute instance. -/
def definesAttrWithValues (env : AttrEnv) (n : List Char)
    (cls : ClsInfo) : Bool :=
  definesAttr n cls && !((env cls.clsName n).isEmpty)

/-- The claim as stated: every attribute name shown in the representation
appears under the first MRO class whose schema defines it, names are
never shown twice, and every included type entry is non-empty. -/
def claimAttrsAtFirstDefiningCls (env : AttrEnv) (mro : List ClsInfo) : Prop :=
  (∀ t ∈ reprInit env mro, ∀ a ∈ t.attributes,
    (mro.find? (definesAttr a.name)).map ClsInfo.clsName = some t.name) ∧
  (typesAttrNames (reprInit env mro)).Nodup ∧
  (∀ t ∈ reprInit env mro, t.attributes ≠ [])

/-- The C10 counterexample environment: only class `B` has a value for
attribute `x`. -/
def cexEnv : AttrEnv := fun c n =>
  if c = ['B'] ∧ n = ['x'] then [⟨['T'], 1⟩] else []

/-- The C10 counterexample MRO: both classes `A` and `B` define attribute
`x` in their schemas. -/
def cexMro : List ClsInfo :=
  [⟨['A'], true, [⟨['x'], true, []⟩]⟩,
   ⟨['B'], true, [⟨['x'], true, []⟩]⟩]

/-- **C10 (counterexample).** When the first MRO class defining an
attribute has no stored values for it while a later class does, the
attribute is listed under the later class: with `A` before `B` both
defining `x` and only `B`'s instance carrying a value, `x` appears under
`B`, not under the first defining class `A`. -/
theorem reprInit_firstDefiningCls_counterexample :
    ¬ claimAttrsAtFirstDefiningCls cexEnv cexMro := by
  unfold claimAttrsAtFirstDefiningCls
  decide

theorem mem_typeInitAttrs_names (env : AttrEnv) (cls : ClsInfo)
    (blacklist : List (List Char)) (n : List Char) :
    n ∈ (typeInitAttrs env cls blacklist).map ApiAff4ObjectAttribute.name ↔
      (n ∉ blacklist ∧
        (cls.schema.any fun e => e.isAttribute && e.name == n) = true ∧
        env cls.clsName n ≠ []) := by
  unfold typeInitAttrs
  rw [List.map_map, List.mem_map]
  constructor
  · rintro ⟨e, he, hne⟩
    rw [List.mem_filter] at he
    obtain ⟨hmem, hpred⟩ := he
    have hmemS : e ∈ cls.schema :=
      (List.perm_insertionSort _ _).mem_iff.mp hmem
    simp only [Bool.and_eq_true, Bool.not_eq_true',
      decide_eq_false_iff_not] at hpred
    have hn : e.name = n := hne
    subst hn
    refine ⟨hpred.1.2, ?_, ?_⟩
    · rw [List.any_eq_true]
      exact ⟨e, hmemS, by simp [hpred.1.1]⟩
    · have := hpred.2
      simp_all
  · rintro ⟨hbl, hany, hval⟩
    rw [List.any_eq_true] at hany
    obtain ⟨e, hmemS, he⟩ := hany
    rw [Bool.and_eq_true, beq_iff_eq] at he
    obtain ⟨hattr, hn⟩ := he
    refine ⟨e, ?_, hn⟩
    rw [List.mem_filter]
    refine ⟨(List.perm_insertionSort _ _).mem_iff.mpr hmemS, ?_⟩
    have hne : (env cls.clsName e.name).isEmpty = false := by
      rw [hn]
      simp_all
    simp [hattr, hn, hbl, hne, hval]

theorem typeInitAttrs_names_nodup (env : AttrEnv) (cls : ClsInfo)
    (blacklist : List (List Char))
    (h : (cls.schema.map SchemaEntry.name).Nodup) :
    ((typeInitAttrs env cls blacklist).map
      ApiAff4ObjectAttribute.name).Nodup := by
  have hsorted : ((sortSchema cls.schema).map SchemaEntry.name).Nodup :=
    (((List.perm_insertionSort _ _).map SchemaEntry.name).nodup_iff).mpr h
  unfold typeInitAttrs
  rw [List.map_map]
  show (((sortSchema cls.schema).filter fun e =>
    e.isAttribute && !(decide (e.name ∈ blacklist)) &&
      !((env cls.clsName e.name).isEmpty)).map SchemaEntry.name).Nodup
  exact hsorted.sublist (List.Sublist.map _ (List.filter_sublist _))

theorem reprInitGo_names_spec (env : AttrEnv) (mro : List ClsInfo)
    (hnd : ∀ cls ∈ mro, (cls.schema.map SchemaEntry.name).Nodup) :
    ∀ blacklist,
      (∀ n ∈ typesAttrNames (reprInitGo env mro blacklist), n ∉ blacklist) ∧
      (typesAttrNames (reprInitGo env mro blacklist)).Nodup := by
  induction mro with
  | nil => intro blacklist; simp [reprInitGo, typesAttrNames]
  | cons cls rest ih =>
    intro blacklist
    have hndc := hnd cls (by simp)
    have hndr : ∀ c ∈ rest, (c.schema.map SchemaEntry.name).Nodup :=
      fun c hc => hnd c (by simp [hc])
    have ih' := (ih hndr) (blacklist ++
      (apiTypeInit env cls blacklist).attributes.map ApiAff4ObjectAttribute.name)
    by_cases hs : cls.hasSchema
    · have hgo : reprInitGo env (cls :: rest) blacklist =
          (if (apiTypeInit env cls blacklist).attributes.isEmpty then
            reprInitGo env rest (blacklist ++
              (apiTypeInit env cls blacklist).attributes.map
                ApiAff4ObjectAttribute.name)
          else apiTypeInit env cls blacklist :: reprInitGo env rest
            (blacklist ++ (apiTypeInit env cls blacklist).attributes.map
              ApiAff4ObjectAttribute.name)) := by
        simp [reprInitGo, hs]
      have hkey : (∀ n ∈ (apiTypeInit env cls blacklist).attributes.map
          ApiAff4ObjectAttribute.name ++
            typesAttrNames (reprInitGo env rest (blacklist ++
              (apiTypeInit env cls blacklist).attributes.map
                ApiAff4ObjectAttribute.name)), n ∉ blacklist) ∧
          ((apiTypeInit env cls blacklist).attributes.map
            ApiAff4ObjectAttribute.name ++
              typesAttrNames (reprInitGo env rest (blacklist ++
                (apiTypeInit env cls blacklist).attributes.map
                  ApiAff4ObjectAttribute.name))).Nodup := by
        constructor
        · intro n hn
          rw [List.mem_append] at hn
          rcases hn with hn | hn
          · exact ((mem_typeInitAttrs_names env cls blacklist n).mp hn).1
          · have := ih'.1 n hn
            intro hbl
            exact this (by rw [List.mem_append]; exact Or.inl hbl)
        · apply List.Nodup.append
          · exact typeInitAttrs_names_nodup env cls blacklist hndc
          · exact ih'.2
          · intro n hn hn'
            have := ih'.1 n hn'
            exact this (by rw [List.mem_append]; exact Or.inr hn)
      rw [hgo]
      by_cases hemp : (apiTypeInit env cls blacklist).attributes.isEmpty
      · rw [if_pos hemp]
        constructor
        · intro n hn
          refine hkey.1 n ?_
          rw [List.mem_append]; exact Or.inr hn
        · exact ih'.2
      · rw [if_neg hemp]
        exact ⟨hkey.1, hkey.2⟩
    · have hgo : reprInitGo env (cls :: rest) blacklist =
          reprInitGo env rest blacklist := by
        simp [reprInitGo, hs]
      rw [hgo]
      exact ih hndr blacklist

theorem reprInitGo_entries_nonempty (env : AttrEnv) (mro : List ClsInfo) :
    ∀ blacklist, ∀ t ∈ reprInitGo env mro blacklist, t.attributes ≠ [] := by
  induction mro with
  | nil => intro blacklist t ht; simp [reprInitGo] at ht
  | cons cls rest ih =>
    intro blacklist t ht
    by_cases hs : cls.hasSchema
    · rw [show reprInitGo env (cls :: rest) blacklist =
          (if (apiTypeInit env cls blacklist).attributes.isEmpty then
            reprInitGo env rest (blacklist ++
              (apiTypeInit env cls blacklist).attributes.map
                ApiAff4ObjectAttribute.name)
          else apiTypeInit env cls blacklist :: reprInitGo env rest
            (blacklist ++ (apiTypeInit env cls blacklist).attributes.map
              ApiAff4ObjectAttribute.name)) from by simp [reprInitGo, hs]] at ht
      by_cases hemp : (apiTypeInit env cls blacklist).attributes.isEmpty
      · rw [if_pos hemp] at ht
        exact ih _ t ht
      · rw [if_neg hemp] at ht
        rcases List.mem_cons.mp ht with rfl | ht'
        · exact fun hc => hemp (by simp [hc])
        · exact ih _ t ht'
    · rw [show reprInitGo env (cls :: rest) blacklist =
          reprInitGo env rest blacklist from by simp [reprInitGo, hs]] at ht
      exact ih _ t ht

theorem reprInitGo_first (env : AttrEnv) (mro : List ClsInfo) :
    ∀ blacklist, ∀ t ∈ reprInitGo env mro blacklist, ∀ a ∈ t.attributes,
      a.name ∉ blacklist ∧
      (mro.find? (definesAttrWithValues env a.name)).map ClsInfo.clsName =
        some t.name := by
  induction mro with
  | nil => intro blacklist t ht; simp [reprInitGo] at ht
  | cons cls rest ih =>
    intro blacklist t ht a ha
    by_cases hs : cls.hasSchema
    · rw [show reprInitGo env (cls :: rest) blacklist =
          (if (apiTypeInit env cls blacklist).attributes.isEmpty then
            reprInitGo env rest (blacklist ++
              (apiTypeInit env cls blacklist).attributes.map
                ApiAff4ObjectAttribute.name)
          else apiTypeInit env cls blacklist :: reprInitGo env rest
            (blacklist ++ (apiTypeInit env cls blacklist).attributes.map
              ApiAff4ObjectAttribute.name)) from by simp [reprInitGo, hs]] at ht
      have tailCase : t ∈ reprInitGo env rest (blacklist ++
          (apiTypeInit env cls blacklist).attributes.map
            ApiAff4ObjectAttribute.name) →
          a.name ∉ blacklist ∧
          ((cls :: rest).find? (definesAttrWithValues env a.name)).map
            ClsInfo.clsName = some t.name := by
        intro ht'
        obtain ⟨hnbl', hfind⟩ := ih _ t ht' a ha
        rw [List.mem_append] at hnbl'
        push_neg at hnbl'
        have hneg : definesAttrWithValues env a.name cls = false := by
          by_contra hpos
          rw [Bool.not_eq_false] at hpos
          unfold definesAttrWithValues definesAttr at hpos
          simp only [Bool.and_eq_true, Bool.not_eq_true'] at hpos
          have hvne : env cls.clsName a.name ≠ [] := by
            have := hpos.2
            simp_all
          have : a.name ∈ (typeInitAttrs env cls blacklist).map
              ApiAff4ObjectAttribute.name := by
            rw [mem_typeInitAttrs_names]
            exact ⟨hnbl'.1, hpos.1.2, hvne⟩
          exact hnbl'.2 this
        rw [List.find?_cons_of_neg _ (by simp [hneg])]
        exact ⟨hnbl'.1, hfind⟩
      by_cases hemp : (apiTypeInit env cls blacklist).attributes.isEmpty
      · rw [if_pos hemp] at ht
        exact tailCase ht
      · rw [if_neg hemp] at ht
        rcases List.mem_cons.mp ht with rfl | ht'
        · have hmem : a.name ∈ (typeInitAttrs env cls blacklist).map
              ApiAff4ObjectAttribute.name :=
            List.mem_map_of_mem ApiAff4ObjectAttribute.name ha
          rw [mem_typeInitAttrs_names] at hmem
          obtain ⟨hnbl, hany, hval⟩ := hmem
          have hpos : definesAttrWithValues env a.name cls = true := by
            unfold definesAttrWithValues definesAttr
            simp [hs, hany, List.isEmpty_iff, hval]
          rw [List.find?_cons_of_pos _ hpos]
          exact ⟨hnbl, rfl⟩
        · exact tailCase ht'
    · rw [show reprInitGo env (cls :: rest) blacklist =
          reprInitGo env rest blacklist from by simp [reprInitGo, hs]] at ht
      obtain ⟨hnbl, hfind⟩ := ih _ t ht a ha
      have hneg : definesAttrWithValues env a.name cls = false := by
        unfold definesAttrWithValues definesAttr
        simp [hs]
      rw [List.find?_cons_of_neg _ (by simp [hneg])]
      exact ⟨hnbl, hfind⟩

/-- **C10 (amended).** In every representation built by
`InitFromAff4Object` (on schemas whose dict keys are distinct, as Python
dict keys are), each attribute name occurs in at most one type entry —
the first class in the method resolution order whose schema defines it
*and for which the object has at least one value* — and every included
type entry has a non-empty attributes list. -/
theorem reprInit_attr_occurrence (env : AttrEnv) (mro : List ClsInfo)
    (hnd : ∀ cls ∈ mro, (cls.schema.map SchemaEntry.name).Nodup) :
    (typesAttrNames (reprInit env mro)).Nodup ∧
    (∀ t ∈ reprInit env mro, t.attributes ≠ []) ∧
    (∀ t ∈ reprInit env mro, ∀ a ∈ t.attributes,
      (mro.find? (definesAttrWithValues env a.name)).map ClsInfo.clsName =
        some t.name) := by
  refine ⟨(reprInitGo_names_spec env mro hnd []).2,
    reprInitGo_entries_nonempty env mro [], ?_⟩
  intro t ht a ha
  exact (reprInitGo_first env mro [] t ht a ha).2

/-- Witness for the amended C10 on the counterexample input itself: the
single entry is under `B`, the first class with a value for `x`. -/
theorem reprInit_attr_occurrence_witness :
    (typesAttrNames (reprInit cexEnv cexMro)).Nodup ∧
    (∀ t ∈ reprInit cexEnv cexMro, t.attributes ≠ []) ∧
    (∀ t ∈ reprInit cexEnv cexMro, ∀ a ∈ t.attributes,
      (cexMro.find? (definesAttrWithValues cexEnv a.name)).map
        ClsInfo.clsName = some t.name) :=
  reprInit_attr_occurrence cexEnv cexMro (by decide)

end GrrVfs
